import Mathlib

/-!
Shallow embedding of the contact-directory program (`Task_01.py`): validated
fields (`Name`, `Phone`, `Birthday`), `Record`, `AddressBook`, the
upcoming-birthdays computation, and the persistence round-trip, together
with theorems checking the specification's claims against the code.

Python exceptions are modelled with `Except Err`; machine dates are modelled
as proleptic-Gregorian `(year, month, day)` triples with the ordinal-day
arithmetic that CPython's `datetime.date` uses.
-/

namespace Task01

/-- The exceptions the program can raise, by rôle:
`invalidFormat` is the `ValueError` raised by `Phone.__init__` /
`Birthday.__init__` on bad input; `notFound` is the `KeyError` (or the
"not found" `ValueError` of `Record.edit_phone`) raised by lookups;
`dayOutOfRange` is the `ValueError` raised by `date.replace` when the day
does not exist in the target month/year; `attributeError` is the
`AttributeError` raised when reading an attribute that was never set. -/
inductive Err
  | invalidFormat
  | notFound
  | dayOutOfRange
  | attributeError
  deriving DecidableEq

/-- Gregorian leap-year rule, as used by `datetime.date`. -/
def isLeapYear (y : Nat) : Bool :=
  y % 4 == 0 && (y % 100 != 0 || y % 400 == 0)

/-- Number of days in month `m` of year `y` (months are 1-based). -/
def daysInMonth (y m : Nat) : Nat :=
  match m with
  | 1 => 31
  | 2 => if isLeapYear y then 29 else 28
  | 3 => 31
  | 4 => 30
  | 5 => 31
  | 6 => 30
  | 7 => 31
  | 8 => 31
  | 9 => 30
  | 10 => 31
  | 11 => 30
  | 12 => 31
  | _ => 0

/-- A calendar date, mirroring `datetime.date` (time-of-day is never used
by the program, so `datetime` values are modelled by their date part). -/
structure Date where
  year : Nat
  month : Nat
  day : Nat
  deriving DecidableEq

/-- Days in all months strictly before month `m` of year `y`. -/
def daysBeforeMonth (y m : Nat) : Nat :=
  (List.range (m - 1)).foldl (fun acc i => acc + daysInMonth y (i + 1)) 0

/-- Days before January 1st of year `y`, counted from ordinal day 1 =
0001-01-01, exactly as CPython's `_ymd2ord` computes it. -/
def daysBeforeYear (y : Nat) : Nat :=
  365 * (y - 1) + (y - 1) / 4 - (y - 1) / 100 + (y - 1) / 400

/-- `date.toordinal()`: 0001-01-01 is day 1. -/
def Date.toOrdinal (d : Date) : Nat :=
  daysBeforeYear d.year + daysBeforeMonth d.year d.month + d.day

/-- `date.weekday()`: Monday = 0 … Sunday = 6 (0001-01-01 was a Monday). -/
def Date.weekday (d : Date) : Nat :=
  (d.toOrdinal + 6) % 7

/-- Successor date (the effect of adding `timedelta(days=1)`). -/
def Date.nextDay (d : Date) : Date :=
  if d.day < daysInMonth d.year d.month then ⟨d.year, d.month, d.day + 1⟩
  else if d.month < 12 then ⟨d.year, d.month + 1, 1⟩
  else ⟨d.year + 1, 1, 1⟩

/-- `date + timedelta(days=k)` for a non-negative `k`. -/
def Date.addDays (d : Date) (k : Nat) : Date :=
  Date.nextDay^[k] d

/-- Python's `date` comparison: lexicographic on `(year, month, day)`. -/
def Date.lt (a b : Date) : Bool :=
  decide (a.year < b.year) ||
    (a.year == b.year &&
      (decide (a.month < b.month) || (a.month == b.month && decide (a.day < b.day))))

/-- `date.replace(year=y)`: keeps month and day, and raises `ValueError`
when the target year is outside `MINYEAR..MAXYEAR` or the day does not
exist in the target month (e.g. Feb 29 in a non-leap year). -/
def Date.replaceYear (d : Date) (y : Nat) : Except Err Date :=
  if 1 ≤ y ∧ y ≤ 9999 then
    if d.day ≤ daysInMonth y d.month then .ok ⟨y, d.month, d.day⟩
    else .error .dayOutOfRange
  else .error .dayOutOfRange

/-- `Name.__init__` stores the raw string in `self.name` (and nothing else:
in particular it never sets `self.value`). -/
structure Name where
  name : String
  deriving DecidableEq

/-- `Phone.__init__` stores the validated string in `self.number` (and
nothing else: in particular it never sets `self.value`). -/
structure Phone where
  number : String
  deriving DecidableEq

/-- `Birthday.__init__` stores the parsed date in `self.date` and the raw
string in `self.value`. -/
structure Birthday where
  date : Date
  value : String
  deriving DecidableEq

/-- Python `len` on a string: number of characters. -/
def pyLen (s : String) : Nat :=
  s.data.length

/-- The code points of the zero digit of every Unicode decimal-digit (`Nd`)
block: each block is a run of ten consecutive code points with decimal
values 0–9. Extracted from the `unicodedata` tables of the CPython that
runs the program (Unicode 14/15 era); this is the character class that
`re`'s `\d` and `int()` accept. -/
def ndZeros : List Nat :=
  [0x30, 0x660, 0x6F0, 0x7C0, 0x966, 0x9E6, 0xA66, 0xAE6, 0xB66, 0xBE6,
   0xC66, 0xCE6, 0xD66, 0xDE6, 0xE50, 0xED0, 0xF20, 0x1040, 0x1090, 0x17E0,
   0x1810, 0x1946, 0x19D0, 0x1A80, 0x1A90, 0x1B50, 0x1BB0, 0x1C40, 0x1C50,
   0xA620, 0xA8D0, 0xA900, 0xA9D0, 0xA9F0, 0xAA50, 0xABF0, 0xFF10, 0x104A0,
   0x10D30, 0x11066, 0x110F0, 0x11136, 0x111D0, 0x112F0, 0x11450, 0x114D0,
   0x11650, 0x116C0, 0x11730, 0x118E0, 0x11950, 0x11C50, 0x11D50, 0x11DA0,
   0x16A60, 0x16AC0, 0x16B50, 0x1D7CE, 0x1D7D8, 0x1D7E2, 0x1D7EC, 0x1D7F6,
   0x1E140, 0x1E2F0, 0x1E950, 0x1FBF0]

/-- Unicode decimal digit (category `Nd`): what `\d` matches in CPython's
`re` on `str` patterns and what `int()` accepts as a digit. -/
def isNd (c : Char) : Bool :=
  ndZeros.any (fun z => decide (z ≤ c.toNat ∧ c.toNat ≤ z + 9))

/-- The decimal value of a Unicode decimal digit (0 for non-digits, which
never arises on the tokens produced below). -/
def ndVal (c : Char) : Nat :=
  match ndZeros.find? (fun z => decide (z ≤ c.toNat ∧ c.toNat ≤ z + 9)) with
  | some z => c.toNat - z
  | none => 0

/-- The code points for which `str.isdigit()` is true although they are not
`Nd` (Unicode `Numeric_Type=Digit`: superscripts and subscripts such as `'²'`, circled
and parenthesized digits, Ethiopic digits, …). Extracted from the same
`unicodedata` tables. -/
def digitExtras : List Nat :=
  [0xB2, 0xB3, 0xB9, 0x1369, 0x136A, 0x136B, 0x136C, 0x136D, 0x136E, 0x136F,
   0x1370, 0x1371, 0x19DA, 0x2070, 0x2074, 0x2075, 0x2076, 0x2077, 0x2078,
   0x2079, 0x2080, 0x2081, 0x2082, 0x2083, 0x2084, 0x2085, 0x2086, 0x2087,
   0x2088, 0x2089, 0x2460, 0x2461, 0x2462, 0x2463, 0x2464, 0x2465, 0x2466,
   0x2467, 0x2468, 0x2474, 0x2475, 0x2476, 0x2477, 0x2478, 0x2479, 0x247A,
   0x247B, 0x247C, 0x2488, 0x2489, 0x248A, 0x248B, 0x248C, 0x248D, 0x248E,
   0x248F, 0x2490, 0x24EA, 0x24F5, 0x24F6, 0x24F7, 0x24F8, 0x24F9, 0x24FA,
   0x24FB, 0x24FC, 0x24FD, 0x24FF, 0x2776, 0x2777, 0x2778, 0x2779, 0x277A,
   0x277B, 0x277C, 0x277D, 0x277E, 0x2780, 0x2781, 0x2782, 0x2783, 0x2784,
   0x2785, 0x2786, 0x2787, 0x2788, 0x278A, 0x278B, 0x278C, 0x278D, 0x278E,
   0x278F, 0x2790, 0x2791, 0x2792, 0x10A40, 0x10A41, 0x10A42, 0x10A43,
   0x10E60, 0x10E61, 0x10E62, 0x10E63, 0x10E64, 0x10E65, 0x10E66, 0x10E67,
   0x10E68, 0x11052, 0x11053, 0x11054, 0x11055, 0x11056, 0x11057, 0x11058,
   0x11059, 0x1105A, 0x1F100, 0x1F101, 0x1F102, 0x1F103, 0x1F104, 0x1F105,
   0x1F106, 0x1F107, 0x1F108, 0x1F109, 0x1F10A]

/-- Python's per-character `str.isdigit()` test: true for the Unicode
decimal digits and for the `Numeric_Type=Digit` characters — a strict
superset of the ASCII decimal digits (e.g. `'²'.isdigit()` is true). -/
def pyCharIsdigit (c : Char) : Bool :=
  isNd c || digitExtras.contains c.toNat

/-- Python `str.isdigit()`: true iff the string is non-empty and every
character passes the per-character digit test above. -/
def pyIsdigit (s : String) : Bool :=
  !s.data.isEmpty && s.data.all pyCharIsdigit

/-- `Phone.__init__`: raises `ValueError` unless the string has length 10
and `isdigit()` holds; on success stores the string in `number`. -/
def Phone.init (number : String) : Except Err Phone :=
  if pyLen number != 10 || !pyIsdigit number then .error .invalidFormat
  else .ok ⟨number⟩

/-- `str.split`-like helper: split a character list on `'.'` (the behaviour
of the regex CPython's `strptime` compiles for `"%d.%m.%Y"` is recovered
from this decomposition below). -/
def splitDots : List Char → List (List Char)
  | [] => [[]]
  | c :: rest =>
    match splitDots rest with
    | [] => [[c]]
    | h :: t => if c = '.' then [] :: h :: t else (c :: h) :: t

/-- Python `int()` on a matched token: `int()` ignores surrounding
whitespace (the `%d` pattern below can put one leading space in a token)
and reads every Unicode decimal digit at its decimal value. -/
def pyInt (cs : List Char) : Nat :=
  (cs.dropWhile (fun c => c == ' ')).foldl (fun n c => 10 * n + ndVal c) 0

/-- The `%d` token of CPython's `strptime`: its compiled regex is
`(3[0-1]|[1-2]\d|0[1-9]|[1-9]| [1-9])` — bracketed ranges are ASCII
literals, `\d` is any Unicode decimal digit, and the last branch accepts a
single leading space; stated over a complete dot-free segment of the
input, as the surrounding literal dots of `"%d.%m.%Y"` force. -/
def dayTok (cs : List Char) : Bool :=
  match cs with
  | [c] => decide ('1' ≤ c ∧ c ≤ '9')
  | [c1, c2] =>
    (decide (c1 = '3') && (decide (c2 = '0') || decide (c2 = '1'))) ||
    ((decide (c1 = '1') || decide (c1 = '2')) && isNd c2) ||
    (decide (c1 = '0') && decide ('1' ≤ c2 ∧ c2 ≤ '9')) ||
    (decide (c1 = ' ') && decide ('1' ≤ c2 ∧ c2 ≤ '9'))
  | _ => false

/-- The `%m` token of CPython's `strptime`: its compiled regex is
`(1[0-2]|0[1-9]|[1-9])` — ASCII only, no `\d` branch. -/
def monthTok (cs : List Char) : Bool :=
  match cs with
  | [c] => decide ('1' ≤ c ∧ c ≤ '9')
  | [c1, c2] =>
    (decide (c1 = '1') && decide ('0' ≤ c2 ∧ c2 ≤ '2')) ||
    (decide (c1 = '0') && decide ('1' ≤ c2 ∧ c2 ≤ '9'))
  | _ => false

/-- The `%Y` token of CPython's `strptime`: regex `(\d\d\d\d)`, exactly
four Unicode decimal digits. -/
def yearTok (cs : List Char) : Bool :=
  cs.length == 4 && cs.all isNd

/-- `Birthday.__init__`: `datetime.strptime(value, "%d.%m.%Y")`. The format
regex forces the shape `day·'.'·month·'.'·year` with the three tokens above,
and `datetime`'s constructor then rejects year 0 and a day that does not
exist in the given month. On success the parsed date is stored in `date`
and the raw string in `value`; any failure is re-raised as the
"Invalid date format" `ValueError`. -/
def Birthday.init (value : String) : Except Err Birthday :=
  match splitDots value.data with
  | [d, m, y] =>
    if dayTok d && monthTok m && yearTok y then
      if decide (1 ≤ pyInt y) &&
          decide (pyInt d ≤ daysInMonth (pyInt y) (pyInt m)) then
        .ok ⟨⟨pyInt y, pyInt m, pyInt d⟩, value⟩
      else .error .invalidFormat
    else .error .invalidFormat
  | _ => .error .invalidFormat

/-- A contact record: `Record.__init__` stores a `Name`, the list of
validated `Phone`s in order, and an optional `Birthday`. -/
structure Record where
  name : Name
  phones : List Phone
  birthday : Option Birthday
  deriving DecidableEq

/-- The list comprehension `[Phone(phone) for phone in phones]`: validates
left to right, the first failure propagates. -/
def initPhones : List String → Except Err (List Phone)
  | [] => .ok []
  | s :: rest => do
    let p ← Phone.init s
    let ps ← initPhones rest
    .ok (p :: ps)

/-- `Record.__init__(name, *phones, birthday=None)`: wraps the name, builds
the phone list, and wraps the birthday when one is given (the falsy empty
string, like `None`, yields no birthday). -/
def Record.init (name : String) (phones : List String) (birthday : Option String) :
    Except Err Record := do
  let ps ← initPhones phones
  match birthday with
  | none => .ok ⟨⟨name⟩, ps, none⟩
  | some b =>
    if b.data.isEmpty then .ok ⟨⟨name⟩, ps, none⟩
    else do
      let bd ← Birthday.init b
      .ok ⟨⟨name⟩, ps, some bd⟩

/-- `Record.add_phone`: validates and appends. -/
def Record.add_phone (r : Record) (phone : String) : Except Err Record := do
  let p ← Phone.init phone
  .ok ⟨r.name, r.phones ++ [p], r.birthday⟩

/-- `Record.remove_phone`: keeps every phone whose digits differ from the
argument; silently does nothing when none match. -/
def Record.remove_phone (r : Record) (phone : String) : Record :=
  ⟨r.name, r.phones.filter (fun p => p.number != phone), r.birthday⟩

/-- Replace the value of the first phone equal to `old` by `new` (the
`for … break / else raise` loop of `edit_phone`); `none` when no phone
matches. -/
def editFirst (phones : List Phone) (old new : String) : Option (List Phone) :=
  match phones with
  | [] => none
  | p :: rest =>
    if p.number == old then some (⟨new⟩ :: rest)
    else
      match editFirst rest old new with
      | some rest2 => some (p :: rest2)
      | none => none

/-- `Record.edit_phone`: overwrites the first matching phone's `number`
in place (note: without validating `new`), or raises the "not found"
`ValueError` when no phone equals `old`. -/
def Record.edit_phone (r : Record) (old new : String) : Except Err Record :=
  match editFirst r.phones old new with
  | some ps => .ok ⟨r.name, ps, r.birthday⟩
  | none => .error .notFound

/-- `Record.find_phone`: first phone whose digits equal the argument. -/
def Record.find_phone (r : Record) (phone : String) : Option Phone :=
  r.phones.find? (fun p => p.number == phone)

/-- `Record.add_birthday`: validates and overwrites the birthday. -/
def Record.add_birthday (r : Record) (birthday : String) : Except Err Record := do
  let b ← Birthday.init birthday
  .ok ⟨r.name, r.phones, some b⟩

/-- The address book: a Python `dict` (insertion-ordered) from contact name
to record, modelled as an ordered association list. -/
abbrev AddressBook := List (String × Record)

/-- Dictionary assignment `self.data[name] = r`: overwrite in place when the
key is present, append otherwise. -/
def setKey : AddressBook → String → Record → AddressBook
  | [], name, r => [(name, r)]
  | e :: rest, name, r =>
    if e.1 == name then (name, r) :: rest else e :: setKey rest name r

/-- `AddressBook.add_record`: keys the record by its own stored name. -/
def add_record (book : AddressBook) (r : Record) : AddressBook :=
  setKey book r.name.name r

/-- `AddressBook.find_record`: the record stored under `name`, if any. -/
def find_record (book : AddressBook) (name : String) : Option Record :=
  (book.find? (fun e => e.1 == name)).map Prod.snd

/-- `AddressBook.delete_record`: `del self.data[name]`, raising `KeyError`
when the name is absent. -/
def delete_record (book : AddressBook) (name : String) : Except Err AddressBook :=
  match find_record book name with
  | some _ => .ok (book.filter (fun e => e.1 != name))
  | none => .error .notFound

/-- `AddressBook.add_phone`: delegates to the record when the name exists,
otherwise creates `Record(name, phone)` and adds it (the upsert). -/
def add_phone (book : AddressBook) (name phone : String) : Except Err AddressBook :=
  match find_record book name with
  | some r => do
    let r2 ← r.add_phone phone
    .ok (setKey book name r2)
  | none => do
    let r ← Record.init name [phone] none
    .ok (add_record book r)

/-- `AddressBook.delete_phone`: delegates to `remove_phone`, raising
`KeyError` when the name is absent. -/
def delete_phone (book : AddressBook) (name phone : String) : Except Err AddressBook :=
  match find_record book name with
  | some r => .ok (setKey book name (r.remove_phone phone))
  | none => .error .notFound

/-- `AddressBook.change_phone`: delegates to `edit_phone`, raising
`KeyError` when the name is absent. -/
def change_phone (book : AddressBook) (name old new : String) : Except Err AddressBook :=
  match find_record book name with
  | some r => do
    let r2 ← r.edit_phone old new
    .ok (setKey book name r2)
  | none => .error .notFound

/-- `AddressBook.add_birthday`: delegates to the record, raising `KeyError`
when the name is absent. -/
def add_birthday (book : AddressBook) (name birthday : String) : Except Err AddressBook :=
  match find_record book name with
  | some r => do
    let r2 ← r.add_birthday birthday
    .ok (setKey book name r2)
  | none => .error .notFound

/-- A field object as `Field.__str__` sees it: one of the three concrete
field classes. Only `Birthday.__init__` ever assigns `self.value`. -/
inductive FieldObj
  | nameF (f : Name)
  | phoneF (f : Phone)
  | birthdayF (f : Birthday)
  deriving DecidableEq

/-- The `value` attribute of a field instance, when it was set by the
constructor that ran: `Name.__init__` sets only `name`, `Phone.__init__`
sets only `number`, `Birthday.__init__` sets `date` and `value`. -/
def FieldObj.valueAttr : FieldObj → Option String
  | .nameF _ => none
  | .phoneF _ => none
  | .birthdayF b => some b.value

/-- `Field.__str__`: returns `str(self.value)`, which raises
`AttributeError` when `self.value` was never assigned. -/
def FieldObj.str (f : FieldObj) : Except Err String :=
  match f.valueAttr with
  | some v => .ok v
  | none => .error .attributeError

/-- Zero-pad a number to two digits (`strftime` `%m` / `%d`). -/
def pad2 (n : Nat) : String :=
  if n < 10 then "0" ++ toString n else toString n

/-- Zero-pad a number to four digits (`strftime` `%Y`). -/
def pad4 (n : Nat) : String :=
  if n < 10 then "000" ++ toString n
  else if n < 100 then "00" ++ toString n
  else if n < 1000 then "0" ++ toString n
  else toString n

/-- `strftime("%Y.%m.%d")`. -/
def formatYMD (d : Date) : String :=
  pad4 d.year ++ "." ++ pad2 d.month ++ "." ++ pad2 d.day

/-- One output line of `get_upcoming_birthdays`: the dict
`{"name": …, "congratulation_date": …}`. -/
abbrev Entry := String × String

/-- Steps 1–2 of the loop body: project the stored birthday onto the
current year, rolling forward one year when the projected date is already
past; each `replace` can raise for a day missing from the target year. -/
def projectBirthday (today : Date) (birthday : Date) : Except Err Date := do
  let bty ← birthday.replaceYear today.year
  if Date.lt bty today then bty.replaceYear (today.year + 1)
  else .ok bty

/-- The Saturday/Sunday shift applied to the projected date. -/
def adjustWeekend (d : Date) : Date :=
  if d.weekday == 5 then d.addDays 2
  else if d.weekday == 6 then d.addDays 1
  else d

/-- The body of the `for record in address_book.values()` loop for one
record: `none` when the record is skipped, `some` entry when it is
emitted, `error` when `date.replace` raises. -/
def processRecord (today : Date) (days : Int) (r : Record) :
    Except Err (Option Entry) :=
  match r.birthday with
  | none => .ok none
  | some b => do
    let bty ← projectBirthday today b.date
    if ((bty.toOrdinal : Int) - (today.toOrdinal : Int)) ≤ days then
      .ok (some (r.name.name, formatYMD (adjustWeekend bty)))
    else .ok none

/-- `get_upcoming_birthdays(address_book, days)`: iterates the records in
insertion order, appending the emitted entries (`datetime.today()` is
passed in as `today`). -/
def get_upcoming_birthdays (today : Date) (book : AddressBook) (days : Int) :
    Except Err (List Entry) :=
  match book with
  | [] => .ok []
  | (_, r) :: rest => do
    let e ← processRecord today days r
    let tail ← get_upcoming_birthdays today rest days
    match e with
    | some entry => .ok (entry :: tail)
    | none => .ok tail

/-- One token of the serialized stream: `pickle` is modelled as a faithful
self-describing flat encoding of the object graph (class by class, field
by field), which is what `pickle.dump`/`pickle.load` guarantee for these
plain data classes. -/
inductive Tok
  | str (v : String)
  | num (v : Nat)
  | optNone
  | optSome
  deriving DecidableEq

/-- The serialized blob: the byte stream written to `addressbook.pkl`. -/
abbrev Blob := List Tok

/-- Serialize a `Birthday` (its `date` fields and raw `value`). -/
def encodeBirthday (b : Birthday) : Blob :=
  [.num b.date.year, .num b.date.month, .num b.date.day, .str b.value]

/-- Serialize a `Record` (name, length-prefixed phone list, optional
birthday). -/
def encodeRecord (r : Record) : Blob :=
  .str r.name.name :: .num r.phones.length ::
    (r.phones.map (fun p => Tok.str p.number) ++
      match r.birthday with
      | none => [Tok.optNone]
      | some b => Tok.optSome :: encodeBirthday b)

/-- Serialize one `(key, record)` entry of the book's `dict`. -/
def encodeEntry (e : String × Record) : Blob :=
  .str e.1 :: encodeRecord e.2

/-- `save_data(book)`: serialize the whole address book, entries in
insertion order. -/
def save_data (book : AddressBook) : Blob :=
  .num book.length :: (book.map encodeEntry).flatten

/-- Deserialize `n` phones. -/
def decodePhones : Nat → Blob → Option (List Phone × Blob)
  | 0, toks => some ([], toks)
  | n + 1, .str v :: toks =>
    match decodePhones n toks with
    | some (ps, rest) => some (⟨v⟩ :: ps, rest)
    | none => none
  | _ + 1, _ => none

/-- Deserialize a `Birthday`. -/
def decodeBirthday : Blob → Option (Birthday × Blob)
  | .num y :: .num m :: .num d :: .str v :: rest => some (⟨⟨y, m, d⟩, v⟩, rest)
  | _ => none

/-- Deserialize a `Record`. -/
def decodeRecord : Blob → Option (Record × Blob)
  | .str nm :: .num np :: toks =>
    match decodePhones np toks with
    | some (ps, .optNone :: rest) => some (⟨⟨nm⟩, ps, none⟩, rest)
    | some (ps, .optSome :: rest) =>
      match decodeBirthday rest with
      | some (b, rest2) => some (⟨⟨nm⟩, ps, some b⟩, rest2)
      | none => none
    | _ => none
  | _ => none

/-- Deserialize `n` dictionary entries. -/
def decodeEntries : Nat → Blob → Option (AddressBook × Blob)
  | 0, toks => some ([], toks)
  | n + 1, .str k :: toks =>
    match decodeRecord toks with
    | some (r, rest) =>
      match decodeEntries n rest with
      | some (book, rest2) => some ((k, r) :: book, rest2)
      | none => none
    | none => none
  | _ + 1, _ => none

/-- `load_data(filename)`: a missing file (`none`) yields a fresh empty
`AddressBook`; otherwise the blob is deserialized, and a corrupt blob
makes the load fail. -/
def load_data : Option Blob → Option AddressBook
  | none => some []
  | some (.num n :: rest) =>
    match decodeEntries n rest with
    | some (book, _) => some book
    | none => none
  | some _ => none

/-- The claim's reading of "matches the pattern `DD.MM.YYYY`": exactly ten
characters, two digits, a dot, two digits, a dot, four digits. (Defined
from the specification's words, to compare with what the code accepts.) -/
def matchesDDMMYYYY (s : String) : Bool :=
  match s.data with
  | [d1, d2, c1, m1, m2, c2, y1, y2, y3, y4] =>
    d1.isDigit && d2.isDigit && c1 == '.' && m1.isDigit && m2.isDigit &&
      c2 == '.' && y1.isDigit && y2.isDigit && y3.isDigit && y4.isDigit
  | _ => false

/-- The validation guard of `Phone.__init__` passes exactly on 10-character
strings whose every character satisfies `isdigit()`. -/
lemma phone_guard (s : String) :
    (pyLen s != 10 || !pyIsdigit s) = false ↔
      (s.data.length = 10 ∧ ∀ c ∈ s.data, pyCharIsdigit c = true) := by
  simp only [pyLen, pyIsdigit, Bool.or_eq_false_iff, bne_eq_false_iff_eq,
    Bool.not_eq_false', Bool.and_eq_true, Bool.not_eq_true', List.all_eq_true]
  constructor
  · rintro ⟨h1, _, h3⟩
    exact ⟨h1, h3⟩
  · rintro ⟨h1, h3⟩
    refine ⟨h1, ?_, h3⟩
    cases hd : s.data with
    | nil => rw [hd] at h1; simp at h1
    | cons c cs => simp [List.isEmpty]

/-- C2 (amended): constructing a `Phone` from `s` succeeds (storing exactly
`s` in its `number` field) if and only if `s` has length 10 and every
character satisfies Python's `str.isdigit()` — a strict superset of the
decimal digits, accepting e.g. `'²'`; for any other string the
construction fails with the invalid-format error and no phone is
produced. -/
theorem phone_init_charact (s : String) :
    (Phone.init s = .ok ⟨s⟩ ↔ (s.data.length = 10 ∧ ∀ c ∈ s.data, pyCharIsdigit c = true))
    ∧ (Phone.init s = .error .invalidFormat ↔
        ¬ (s.data.length = 10 ∧ ∀ c ∈ s.data, pyCharIsdigit c = true)) := by
  have hg := phone_guard s
  rcases Bool.eq_false_or_eq_true (pyLen s != 10 || !pyIsdigit s) with h | h
  · have herr : Phone.init s = .error .invalidFormat := by
      unfold Phone.init
      rw [h]
      simp
    have hnrhs : ¬ (s.data.length = 10 ∧ ∀ c ∈ s.data, pyCharIsdigit c = true) := by
      intro hc
      have := hg.mpr hc
      rw [h] at this
      exact absurd this (by simp)
    rw [herr]
    exact ⟨⟨fun hcontra => absurd hcontra (by simp), fun hrhs2 => (hnrhs hrhs2).elim⟩,
      ⟨fun _ => hnrhs, fun _ => rfl⟩⟩
  · have hok : Phone.init s = .ok ⟨s⟩ := by
      unfold Phone.init
      rw [h]
      simp
    have hrhs := hg.mp h
    rw [hok]
    exact ⟨⟨fun _ => hrhs, fun _ => rfl⟩,
      ⟨fun hcontra => absurd hcontra (by simp), fun hn => (hn hrhs).elim⟩⟩

/-- C2 counterexample: the superscript-two string `"²²²²²²²²²²"` has
length 10 and passes `str.isdigit()`, so `Phone` construction succeeds in
the program, although `'²'` is not a decimal digit (it is not even a
Unicode `Nd` digit) — refuting the claimed "only decimal digits" iff. -/
theorem phone_init_superscript :
    Phone.init "²²²²²²²²²²" = .ok ⟨"²²²²²²²²²²"⟩
    ∧ Char.isDigit '²' = false
    ∧ isNd '²' = false
    ∧ pyCharIsdigit '²' = true :=
  ⟨rfl, rfl, by decide, by decide⟩

/-- C6 (code bug): `Field.__str__` reads `self.value`, but `Phone.__init__`
and `Name.__init__` never assign `value`, so stringifying a validly
constructed `Phone` or `Name` raises `AttributeError` instead of returning
the original text; only `Birthday` stringifies to its original text. -/
theorem field_str_attribute_error :
    Phone.init "0123456789" = .ok ⟨"0123456789"⟩
    ∧ FieldObj.str (.phoneF ⟨"0123456789"⟩) = .error .attributeError
    ∧ FieldObj.str (.nameF ⟨"Bob"⟩) = .error .attributeError
    ∧ Birthday.init "13.05.2024" = .ok ⟨⟨2024, 5, 13⟩, "13.05.2024"⟩
    ∧ FieldObj.str (.birthdayF ⟨⟨2024, 5, 13⟩, "13.05.2024"⟩) = .ok "13.05.2024" :=
  ⟨rfl, rfl, rfl, rfl, rfl⟩

/-- A book containing a record with the (valid) birthday 29.02.2024,
reachable through the program's own operations. -/
def bookFeb29 : AddressBook :=
  [("Ann", ⟨⟨"Ann"⟩, [], some ⟨⟨2024, 2, 29⟩, "29.02.2024"⟩⟩)]

/-- C5 (code bug): `get_upcoming_birthdays` is not total — for a record
whose stored birthday is Feb 29 and a `today` in a non-leap year,
`birthday.replace(year=today.year)` raises `ValueError` ("day is out of
range for month") instead of returning a list. The first two conjuncts
show the failing state arises from valid inputs via the program's own
operations. -/
theorem birthdays_feb29_error :
    Birthday.init "29.02.2024" = .ok ⟨⟨2024, 2, 29⟩, "29.02.2024"⟩
    ∧ add_birthday [("Ann", ⟨⟨"Ann"⟩, [], none⟩)] "Ann" "29.02.2024" = .ok bookFeb29
    ∧ get_upcoming_birthdays ⟨2025, 6, 10⟩ bookFeb29 7 = .error .dayOutOfRange :=
  ⟨rfl, rfl, rfl⟩

/-- C7 counterexample: `"5.6.2024"` does not match the pattern `DD.MM.YYYY`
(two-digit day and month), yet `Birthday` construction succeeds on it,
because `strptime`'s `%d` and `%m` also accept single-digit fields. -/
theorem birthday_init_counterexample :
    Birthday.init "5.6.2024" = .ok ⟨⟨2024, 6, 5⟩, "5.6.2024"⟩
    ∧ matchesDDMMYYYY "5.6.2024" = false :=
  ⟨rfl, rfl⟩

/-- `editFirst` on a list split around the first match rewrites exactly
that occurrence. -/
lemma editFirst_found (old new : String) (pre : List Phone) (p : Phone)
    (post : List Phone) (hpre : ∀ q ∈ pre, q.number ≠ old) (hp : p.number = old) :
    editFirst (pre ++ p :: post) old new = some (pre ++ ⟨new⟩ :: post) := by
  induction pre with
  | nil => simp [editFirst, hp]
  | cons q qs ih =>
    have hq : q.number ≠ old := hpre q (by simp)
    simp only [List.cons_append, editFirst]
    rw [if_neg (by simpa using hq)]
    simp only [List.append_eq]
    rw [ih (fun x hx => hpre x (by simp [hx]))]

/-- `editFirst` returns `none` when no phone matches. -/
lemma editFirst_none (old new : String) (phones : List Phone)
    (h : ∀ q ∈ phones, q.number ≠ old) :
    editFirst phones old new = none := by
  induction phones with
  | nil => rfl
  | cons p rest ih =>
    have hp : p.number ≠ old := h p (by simp)
    simp only [editFirst]
    rw [if_neg (by simpa using hp)]
    rw [ih (fun q hq => h q (by simp [hq]))]

/-- C3 (amended): `edit_phone(old, new)` overwrites in place the `number`
of the first phone equal to `old` — without validating `new` — leaves all
other phones, the name and the birthday unchanged, and fails with the
not-found error when no phone equals `old`; with duplicates only the first
occurrence is edited. -/
theorem edit_phone_spec (r : Record) (old new : String) :
    (∀ pre p post, r.phones = pre ++ p :: post → (∀ q ∈ pre, q.number ≠ old) →
        p.number = old →
        r.edit_phone old new = .ok ⟨r.name, pre ++ ⟨new⟩ :: post, r.birthday⟩)
    ∧ ((∀ q ∈ r.phones, q.number ≠ old) → r.edit_phone old new = .error .notFound) := by
  constructor
  · intro pre p post hsplit hpre hp
    unfold Record.edit_phone
    rw [hsplit, editFirst_found old new pre p post hpre hp]
  · intro h
    unfold Record.edit_phone
    rw [editFirst_none old new r.phones h]

/-- C3 counterexample: `edit_phone` accepts an invalid new number. The
record keeps `"abc"` as a phone even though `Phone` validation rejects it,
so the claimed `InvalidFormat` failure does not happen. -/
theorem edit_phone_no_validation :
    Record.edit_phone ⟨⟨"Bob"⟩, [⟨"1111111111"⟩], none⟩ "1111111111" "abc" =
      .ok ⟨⟨"Bob"⟩, [⟨"abc"⟩], none⟩
    ∧ Phone.init "abc" = .error .invalidFormat :=
  ⟨rfl, rfl⟩

/-- Witness for C3's amended theorem: the specification's own example,
`["1111111111","2222222222"]` edited to `["3333333333","2222222222"]`. -/
theorem edit_phone_spec_witness :
    Record.edit_phone ⟨⟨"Ann"⟩, [⟨"1111111111"⟩, ⟨"2222222222"⟩], none⟩
        "1111111111" "3333333333" =
      .ok ⟨⟨"Ann"⟩, [⟨"3333333333"⟩, ⟨"2222222222"⟩], none⟩ :=
  (edit_phone_spec ⟨⟨"Ann"⟩, [⟨"1111111111"⟩, ⟨"2222222222"⟩], none⟩
      "1111111111" "3333333333").1
    [] ⟨"1111111111"⟩ [⟨"2222222222"⟩] rfl (by simp) rfl

/-- Overwriting a key with the very record already stored there leaves the
dictionary unchanged. -/
lemma setKey_self {book : AddressBook} {name : String} {r : Record}
    (h : find_record book name = some r) : setKey book name r = book := by
  induction book with
  | nil => simp [find_record] at h
  | cons e rest ih =>
    by_cases he : (e.1 == name) = true
    · have hname : e.1 = name := by simpa using he
      have hr : r = e.2 := by
        simp [find_record, List.find?, he] at h
        exact h.symm
      simp [setKey, he, hr, ← hname]
    · have h' : find_record rest name = some r := by
        simp only [find_record, List.find?, he] at h ⊢
        exact h
      simp [setKey, he, ih h']

/-- Assigning an absent key appends the new entry. -/
lemma setKey_absent {book : AddressBook} {name : String} (r : Record)
    (h : find_record book name = none) : setKey book name r = book ++ [(name, r)] := by
  induction book with
  | nil => rfl
  | cons e rest ih =>
    by_cases he : (e.1 == name) = true
    · simp [find_record, List.find?, he] at h
    · have h' : find_record rest name = none := by
        simp only [find_record, List.find?, he] at h ⊢
        exact h
      simp [setKey, he, ih h']

/-- `remove_phone` with no matching phone rebuilds the record unchanged. -/
lemma remove_phone_no_match (r : Record) (phone : String)
    (h : ∀ p ∈ r.phones, p.number ≠ phone) : r.remove_phone phone = r := by
  unfold Record.remove_phone
  have hf : r.phones.filter (fun p => p.number != phone) = r.phones :=
    List.filter_eq_self.mpr (fun p hp => by simpa using h p hp)
  rw [hf]

/-- C9: `delete_phone(name, phone)` fails with the not-found error exactly
when `name` is absent from the book; when the name is present but none of
its phones equals `phone`, the call succeeds and leaves the whole book —
in particular that record's phone list and birthday — unchanged. -/
theorem delete_phone_spec (book : AddressBook) (name phone : String) :
    (delete_phone book name phone = .error .notFound ↔ find_record book name = none)
    ∧ (∀ r, find_record book name = some r → (∀ p ∈ r.phones, p.number ≠ phone) →
        delete_phone book name phone = .ok book) := by
  constructor
  · cases hf : find_record book name with
    | none => simp [delete_phone, hf]
    | some r => simp [delete_phone, hf]
  · intro r hf hnone
    simp [delete_phone, hf, remove_phone_no_match r phone hnone, setKey_self hf]

/-- Witness for C9: deleting an absent phone from an existing contact is a
no-op, and deleting from an absent contact fails. -/
theorem delete_phone_spec_witness :
    delete_phone [("Bob", ⟨⟨"Bob"⟩, [⟨"1234567890"⟩], none⟩)] "Bob" "0000000000" =
      .ok [("Bob", ⟨⟨"Bob"⟩, [⟨"1234567890"⟩], none⟩)]
    ∧ delete_phone [("Bob", ⟨⟨"Bob"⟩, [⟨"1234567890"⟩], none⟩)] "Alice" "1234567890" =
      .error .notFound := by
  constructor
  · exact (delete_phone_spec [("Bob", ⟨⟨"Bob"⟩, [⟨"1234567890"⟩], none⟩)]
      "Bob" "0000000000").2 ⟨⟨"Bob"⟩, [⟨"1234567890"⟩], none⟩ rfl (by decide)
  · exact (delete_phone_spec [("Bob", ⟨⟨"Bob"⟩, [⟨"1234567890"⟩], none⟩)]
      "Alice" "1234567890").1.mpr rfl

/-- A successful `Phone` construction stores exactly the input string. -/
lemma phone_init_ok {s : String} {p : Phone} (h : Phone.init s = .ok p) : p = ⟨s⟩ := by
  unfold Phone.init at h
  by_cases hg : (pyLen s != 10 || !pyIsdigit s) = true
  · rw [if_pos hg] at h
    exact absurd h (by simp)
  · rw [if_neg hg] at h
    exact (Except.ok.inj h).symm

/-- A failed `Phone` construction raises only the invalid-format error. -/
lemma phone_init_error {s : String} {e : Err} (h : Phone.init s = .error e) :
    e = .invalidFormat := by
  unfold Phone.init at h
  by_cases hg : (pyLen s != 10 || !pyIsdigit s) = true
  · rw [if_pos hg] at h
    exact (Except.error.inj h).symm
  · rw [if_neg hg] at h
    exact absurd h (by simp)

/-- A failed `Birthday` construction raises only the invalid-format error. -/
lemma birthday_init_error {s : String} {e : Err} (h : Birthday.init s = .error e) :
    e = .invalidFormat := by
  unfold Birthday.init at h
  split at h
  · split at h
    · split at h
      · exact absurd h (by simp)
      · exact (Except.error.inj h).symm
    · exact (Except.error.inj h).symm
  · exact (Except.error.inj h).symm

/-- A failed phone-list validation raises only the invalid-format error. -/
lemma initPhones_error {l : List String} :
    ∀ {e : Err}, initPhones l = .error e → e = .invalidFormat := by
  induction l with
  | nil => exact fun h => Except.noConfusion h
  | cons s rest ih =>
    intro e h
    unfold initPhones at h
    cases hp : Phone.init s with
    | error e1 =>
      rw [hp] at h
      have h1 : e1 = e := Except.error.inj h
      rw [← h1]
      exact phone_init_error hp
    | ok p =>
      rw [hp] at h
      cases hr : initPhones rest with
      | error e2 =>
        rw [hr] at h
        have h1 : e2 = e := Except.error.inj h
        rw [← h1]
        exact ih hr
      | ok ps =>
        rw [hr] at h
        exact Except.noConfusion h

/-- C8: for every valid phone string, the book-level `add_phone` appends
the phone to the existing record when the name is present, creates a new
record holding exactly that one phone (keyed by the name, appended at the
end of the book) when the name is absent, and — for any arguments at all —
never fails with the not-found error. -/
theorem add_phone_upsert (book : AddressBook) (name phone : String)
    (hv : ∃ p, Phone.init phone = .ok p) :
    (∀ r, find_record book name = some r →
        add_phone book name phone =
          .ok (setKey book name ⟨r.name, r.phones ++ [⟨phone⟩], r.birthday⟩))
    ∧ (find_record book name = none →
        add_phone book name phone = .ok (book ++ [(name, ⟨⟨name⟩, [⟨phone⟩], none⟩)]))
    ∧ (∀ n p, add_phone book n p ≠ .error .notFound) := by
  obtain ⟨p0, hp0⟩ := hv
  rw [phone_init_ok hp0] at hp0
  refine ⟨?_, ?_, ?_⟩
  · intro r hf
    unfold add_phone Record.add_phone
    rw [hf, hp0]
    rfl
  · intro hf
    have habs := @setKey_absent book name ⟨⟨name⟩, [⟨phone⟩], none⟩ hf
    unfold add_phone Record.init initPhones
    rw [hf, hp0]
    show Except.ok (add_record book ⟨⟨name⟩, [⟨phone⟩], none⟩) = _
    unfold add_record
    rw [habs]
  · intro n p hcontra
    unfold add_phone at hcontra
    cases hf : find_record book n with
    | some r =>
      rw [hf] at hcontra
      unfold Record.add_phone at hcontra
      cases hip : Phone.init p with
      | ok q =>
        rw [hip] at hcontra
        exact Except.noConfusion hcontra
      | error e =>
        rw [hip] at hcontra
        have h1 : e = Err.notFound := Except.error.inj hcontra
        rw [phone_init_error hip] at h1
        exact Err.noConfusion h1
    | none =>
      rw [hf] at hcontra
      unfold Record.init at hcontra
      cases hips : initPhones [p] with
      | ok ps =>
        rw [hips] at hcontra
        exact Except.noConfusion hcontra
      | error e =>
        rw [hips] at hcontra
        have h1 : e = Err.notFound := Except.error.inj hcontra
        rw [initPhones_error hips] at h1
        exact Err.noConfusion h1

/-- Witness for C8: the specification's example — adding
`("Alice", "5555555555")` to a book without "Alice" creates a record with
exactly that one phone. -/
theorem add_phone_upsert_witness :
    Phone.init "5555555555" = .ok ⟨"5555555555"⟩
    ∧ add_phone [] "Alice" "5555555555" =
        .ok [("Alice", ⟨⟨"Alice"⟩, [⟨"5555555555"⟩], none⟩)] :=
  ⟨rfl, (add_phone_upsert [] "Alice" "5555555555" ⟨⟨"5555555555"⟩, rfl⟩).2.1 rfl⟩

/-- C4: for every record included in the upcoming-birthdays computation
(its birthday projects to `p` and `p` is within the window), the emitted
congratulation date is the weekend-adjusted projection: `p` plus two days
when `p` falls on Saturday (weekday 5 under the Monday-start convention),
`p` plus one day when it falls on Sunday (weekday 6), and `p` itself on a
weekday. -/
theorem weekend_shift (today : Date) (days : Int) (r : Record) (b : Birthday) (p : Date)
    (hb : r.birthday = some b)
    (hproj : projectBirthday today b.date = .ok p)
    (hwin : ((p.toOrdinal : Int) - (today.toOrdinal : Int)) ≤ days) :
    processRecord today days r = .ok (some (r.name.name, formatYMD (adjustWeekend p)))
    ∧ (p.weekday = 5 → adjustWeekend p = p.addDays 2)
    ∧ (p.weekday = 6 → adjustWeekend p = p.addDays 1)
    ∧ (p.weekday ≠ 5 → p.weekday ≠ 6 → adjustWeekend p = p) := by
  refine ⟨?_, ?_, ?_, ?_⟩
  · have hstep : processRecord today days r = (do
        let bty ← projectBirthday today b.date
        if ((bty.toOrdinal : Int) - (today.toOrdinal : Int)) ≤ days then
          Except.ok (some (r.name.name, formatYMD (adjustWeekend bty)))
        else Except.ok none) := by
      unfold processRecord
      rw [hb]
    rw [hstep, hproj]
    show (if ((p.toOrdinal : Int) - (today.toOrdinal : Int)) ≤ days then _ else _) = _
    rw [if_pos hwin]
  · intro h5
    simp [adjustWeekend, h5]
  · intro h6
    simp [adjustWeekend, h6]
  · intro h5 h6
    simp [adjustWeekend, h5, h6]

/-- Witness for C4: the specification's own example — birthday
`15.06.1990` and `today = 2024-06-10` (a Monday): the projection
`2024-06-15` is a Saturday inside the 7-day window and the emitted
congratulation date is `2024.06.17`. -/
theorem weekend_shift_witness :
    processRecord ⟨2024, 6, 10⟩ 7 ⟨⟨"Eve"⟩, [], some ⟨⟨1990, 6, 15⟩, "15.06.1990"⟩⟩ =
      .ok (some ("Eve", "2024.06.17"))
    ∧ Date.weekday ⟨2024, 6, 15⟩ = 5
    ∧ adjustWeekend ⟨2024, 6, 15⟩ = Date.addDays ⟨2024, 6, 15⟩ 2 := by
  have h := weekend_shift ⟨2024, 6, 10⟩ 7
    ⟨⟨"Eve"⟩, [], some ⟨⟨1990, 6, 15⟩, "15.06.1990"⟩⟩
    ⟨⟨1990, 6, 15⟩, "15.06.1990"⟩ ⟨2024, 6, 15⟩ rfl rfl (by decide)
  refine ⟨?_, by decide, h.2.1 (by decide)⟩
  rw [h.1]
  rfl

/-- Deserializing an encoded phone list consumes exactly the encoding and
returns the original phones. -/
lemma decodePhones_encode (ps : List Phone) (rest : Blob) :
    decodePhones ps.length (ps.map (fun p => Tok.str p.number) ++ rest) =
      some (ps, rest) := by
  induction ps with
  | nil => rfl
  | cons p ps ih =>
    simp only [List.length_cons, List.map_cons, List.cons_append, decodePhones,
      List.append_eq, ih]

/-- Deserializing an encoded record consumes exactly the encoding and
returns the original record. -/
lemma decodeRecord_encode (r : Record) (rest : Blob) :
    decodeRecord (encodeRecord r ++ rest) = some (r, rest) := by
  obtain ⟨⟨nm⟩, ps, bd⟩ := r
  cases bd with
  | none =>
    simp [encodeRecord, decodeRecord, List.append_assoc, decodePhones_encode]
  | some b =>
    obtain ⟨⟨y, m, d⟩, v⟩ := b
    simp [encodeRecord, decodeRecord, encodeBirthday, decodeBirthday,
      List.append_assoc, decodePhones_encode]

/-- Deserializing the encoded entry stream consumes exactly the encodings
and returns the original book. -/
lemma decodeEntries_encode (book : AddressBook) (rest : Blob) :
    decodeEntries book.length ((book.map encodeEntry).flatten ++ rest) =
      some (book, rest) := by
  induction book with
  | nil => rfl
  | cons e book ih =>
    simp [decodeEntries, encodeEntry, List.append_assoc, decodeRecord_encode, ih]

/-- Deserializing a serialized book gives the book back. -/
lemma load_save_id (book : AddressBook) :
    load_data (some (save_data book)) = some book := by
  have h := decodeEntries_encode book []
  rw [List.append_nil] at h
  simp [save_data, load_data, h]

/-- C1: persistence round-trip — loading what `save_data` wrote reproduces
the address book exactly: the same keys in the same insertion order, each
record with its name, its phone list in order, and its birthday's original
text and parsed date. -/
theorem save_load_roundtrip (book : AddressBook) :
    load_data (some (save_data book)) = some book :=
  load_save_id book

/-- The directory states the program can reach: a fresh empty book, a book
loaded from a saved reachable book, and the result of each successful
mutating operation of `AddressBook` on a reachable book. -/
inductive Reachable : AddressBook → Prop
  | empty : Reachable []
  | loaded {book book2 : AddressBook} : Reachable book →
      load_data (some (save_data book)) = some book2 → Reachable book2
  | addRecord {book : AddressBook} (r : Record) : Reachable book →
      Reachable (add_record book r)
  | deleteRecord {book book2 : AddressBook} (name : String) : Reachable book →
      delete_record book name = .ok book2 → Reachable book2
  | addPhone {book book2 : AddressBook} (name phone : String) : Reachable book →
      add_phone book name phone = .ok book2 → Reachable book2
  | deletePhone {book book2 : AddressBook} (name phone : String) : Reachable book →
      delete_phone book name phone = .ok book2 → Reachable book2
  | changePhone {book book2 : AddressBook} (name old new : String) : Reachable book →
      change_phone book name old new = .ok book2 → Reachable book2
  | addBirthday {book book2 : AddressBook} (name birthday : String) : Reachable book →
      add_birthday book name birthday = .ok book2 → Reachable book2

/-- Every entry of `setKey book name r` is an old entry or the new pair. -/
lemma mem_setKey {book : AddressBook} {name : String} {r : Record}
    {e : String × Record} (he : e ∈ setKey book name r) :
    e ∈ book ∨ e = (name, r) := by
  induction book with
  | nil =>
    simp only [setKey, List.mem_singleton] at he
    exact Or.inr he
  | cons e1 rest ih =>
    by_cases h1 : (e1.1 == name) = true
    · simp only [setKey, if_pos h1, List.mem_cons] at he
      rcases he with he | he
      · exact Or.inr he
      · exact Or.inl (List.mem_cons_of_mem _ he)
    · simp only [setKey, if_neg h1, List.mem_cons] at he
      rcases he with he | he
      · exact Or.inl (by simp [he])
      · rcases ih he with h | h
        · exact Or.inl (List.mem_cons_of_mem _ h)
        · exact Or.inr h

/-- A successful lookup returns a record actually stored under that name. -/
lemma find_record_mem {book : AddressBook} {name : String} {r : Record}
    (h : find_record book name = some r) : (name, r) ∈ book := by
  induction book with
  | nil => simp [find_record] at h
  | cons e rest ih =>
    by_cases h1 : (e.1 == name) = true
    · have hname : e.1 = name := by simpa using h1
      have hr : r = e.2 := by
        simp [find_record, List.find?, h1] at h
        exact h.symm
      rw [hr, ← hname]
      exact List.mem_cons_self _ _
    · have h' : find_record rest name = some r := by
        simp only [find_record, List.find?, h1] at h ⊢
        exact h
      exact List.mem_cons_of_mem _ (ih h')

/-- A successful `Record.init` stores exactly the given name. -/
lemma record_init_name {name : String} {phones : List String}
    {birthday : Option String} {r : Record}
    (h : Record.init name phones birthday = .ok r) : r.name = ⟨name⟩ := by
  unfold Record.init at h
  cases hp : initPhones phones with
  | error e =>
    rw [hp] at h
    exact Except.noConfusion h
  | ok ps =>
    rw [hp] at h
    cases birthday with
    | none => exact congrArg Record.name (Except.ok.inj h).symm
    | some b =>
      have h' : (if b.data.isEmpty = true then
            Except.ok (⟨⟨name⟩, ps, none⟩ : Record)
          else do
            let bd ← Birthday.init b
            Except.ok (⟨⟨name⟩, ps, some bd⟩ : Record)) = Except.ok r := h
      by_cases hempty : b.data.isEmpty = true
      · rw [if_pos hempty] at h'
        exact congrArg Record.name (Except.ok.inj h').symm
      · rw [if_neg hempty] at h'
        cases hb : Birthday.init b with
        | error e =>
          rw [hb] at h'
          exact Except.noConfusion h'
        | ok bd =>
          rw [hb] at h'
          exact congrArg Record.name (Except.ok.inj h').symm

/-- The key invariant, stated for one book. -/
def KeysMatch (book : AddressBook) : Prop :=
  ∀ e ∈ book, e.1 = e.2.name.name

/-- `setKey` preserves the key invariant when the new pair satisfies it. -/
lemma keysMatch_setKey {book : AddressBook} {name : String} {r : Record}
    (hb : KeysMatch book) (hr : name = r.name.name) :
    KeysMatch (setKey book name r) := by
  intro e he
  rcases mem_setKey he with h | h
  · exact hb e h
  · rw [h]
    exact hr

/-- C10: every reachable directory state — starting from the empty book or
from a loaded snapshot, after any sequence of `add_record`,
`delete_record`, `add_phone`, `delete_phone`, `change_phone` and
`add_birthday` operations — maps each key to a record whose stored name
equals that key. -/
theorem reachable_keys_invariant {book : AddressBook} (h : Reachable book) :
    ∀ e ∈ book, e.1 = e.2.name.name := by
  induction h with
  | empty => intro e he; simp at he
  | loaded hre hload ih =>
    rename_i b1 b2
    rw [load_save_id] at hload
    rw [← Option.some.inj hload]
    exact ih
  | addRecord r hre ih =>
    exact keysMatch_setKey ih rfl
  | deleteRecord name hre hdel ih =>
    rename_i b1 b2
    unfold delete_record at hdel
    cases hf : find_record b1 name with
    | none =>
      rw [hf] at hdel
      exact Except.noConfusion hdel
    | some r0 =>
      rw [hf] at hdel
      rw [← Except.ok.inj hdel]
      intro e he
      exact ih e (List.mem_of_mem_filter he)
  | addPhone name phone hre hstep ih =>
    rename_i b1 b2
    unfold add_phone at hstep
    cases hf : find_record b1 name with
    | some r0 =>
      rw [hf] at hstep
      unfold Record.add_phone at hstep
      cases hp : Phone.init phone with
      | error e =>
        rw [hp] at hstep
        exact Except.noConfusion hstep
      | ok p =>
        rw [hp] at hstep
        rw [← Except.ok.inj hstep]
        exact keysMatch_setKey ih (ih _ (find_record_mem hf))
    | none =>
      rw [hf] at hstep
      cases hr : Record.init name [phone] none with
      | error e =>
        rw [hr] at hstep
        exact Except.noConfusion hstep
      | ok r0 =>
        rw [hr] at hstep
        rw [← Except.ok.inj hstep]
        unfold add_record
        exact keysMatch_setKey ih (by rw [record_init_name hr])
  | deletePhone name phone hre hstep ih =>
    rename_i b1 b2
    unfold delete_phone at hstep
    cases hf : find_record b1 name with
    | none =>
      rw [hf] at hstep
      exact Except.noConfusion hstep
    | some r0 =>
      rw [hf] at hstep
      rw [← Except.ok.inj hstep]
      exact keysMatch_setKey ih (ih _ (find_record_mem hf))
  | changePhone name old new hre hstep ih =>
    rename_i b1 b2
    unfold change_phone at hstep
    cases hf : find_record b1 name with
    | none =>
      rw [hf] at hstep
      exact Except.noConfusion hstep
    | some r0 =>
      rw [hf] at hstep
      have hstep' : (do
          let r2 ← Record.edit_phone r0 old new
          Except.ok (setKey b1 name r2)) = Except.ok b2 := hstep
      unfold Record.edit_phone at hstep'
      cases hef : editFirst r0.phones old new with
      | none =>
        rw [hef] at hstep'
        exact Except.noConfusion hstep'
      | some ps =>
        rw [hef] at hstep'
        rw [← Except.ok.inj hstep']
        exact keysMatch_setKey ih (ih _ (find_record_mem hf))
  | addBirthday name birthday hre hstep ih =>
    rename_i b1 b2
    unfold add_birthday at hstep
    cases hf : find_record b1 name with
    | none =>
      rw [hf] at hstep
      exact Except.noConfusion hstep
    | some r0 =>
      rw [hf] at hstep
      unfold Record.add_birthday at hstep
      cases hb : Birthday.init birthday with
      | error e =>
        rw [hb] at hstep
        exact Except.noConfusion hstep
      | ok bd =>
        rw [hb] at hstep
        rw [← Except.ok.inj hstep]
        exact keysMatch_setKey ih (ih _ (find_record_mem hf))

/-- Witness for C10: a concrete reachable book, and its key equal to the
stored record name via the invariant. -/
theorem reachable_keys_invariant_witness :
    Reachable [("Alice", (⟨⟨"Alice"⟩, [⟨"5555555555"⟩], none⟩ : Record))]
    ∧ "Alice" = (Record.mk ⟨"Alice"⟩ [⟨"5555555555"⟩] none).name.name := by
  have hr : Reachable [("Alice", (⟨⟨"Alice"⟩, [⟨"5555555555"⟩], none⟩ : Record))] :=
    Reachable.addRecord ⟨⟨"Alice"⟩, [⟨"5555555555"⟩], none⟩ Reachable.empty
  exact ⟨hr, reachable_keys_invariant hr ("Alice", ⟨⟨"Alice"⟩, [⟨"5555555555"⟩], none⟩)
    (List.mem_singleton.mpr rfl)⟩

/-- Inverse of `splitDots`: interleave the parts with dots. -/
def joinDots : List (List Char) → List Char
  | [] => []
  | [x] => x
  | x :: y :: t => x ++ '.' :: joinDots (y :: t)

/-- `splitDots` never returns an empty part list. -/
lemma splitDots_ne_nil (l : List Char) : splitDots l ≠ [] := by
  cases l with
  | nil => simp [splitDots]
  | cons c rest =>
    unfold splitDots
    cases splitDots rest with
    | nil => simp
    | cons h t => by_cases hc : c = '.' <;> simp [hc]

/-- Joining the split parts recovers the original character list. -/
lemma joinDots_splitDots (l : List Char) : joinDots (splitDots l) = l := by
  induction l with
  | nil => rfl
  | cons c rest ih =>
    unfold splitDots
    cases hs : splitDots rest with
    | nil => exact absurd hs (splitDots_ne_nil rest)
    | cons h t =>
      rw [hs] at ih
      show joinDots (if c = '.' then [] :: h :: t else (c :: h) :: t) = c :: rest
      by_cases hc : c = '.'
      · rw [if_pos hc]
        show ([] : List Char) ++ '.' :: joinDots (h :: t) = c :: rest
        rw [ih, hc]
        rfl
      · rw [if_neg hc]
        cases t with
        | nil =>
          show c :: h = c :: rest
          rw [show h = rest from ih]
        | cons t1 ts =>
          show (c :: h) ++ '.' :: joinDots (t1 :: ts) = c :: rest
          have hih : h ++ '.' :: joinDots (t1 :: ts) = rest := ih
          rw [List.cons_append, hih]

/-- No part produced by `splitDots` contains a dot. -/
lemma splitDots_mem_dotfree (l : List Char) : ∀ p ∈ splitDots l, '.' ∉ p := by
  induction l with
  | nil =>
    intro p hp
    simp only [splitDots, List.mem_singleton] at hp
    simp [hp]
  | cons c rest ih =>
    intro p hp
    unfold splitDots at hp
    cases hs : splitDots rest with
    | nil => exact absurd hs (splitDots_ne_nil rest)
    | cons h t =>
      rw [hs] at hp
      have hp' : p ∈ (if c = '.' then [] :: h :: t else (c :: h) :: t) := hp
      clear hp
      rename' hp' => hp
      by_cases hc : c = '.'
      · rw [if_pos hc] at hp
        rcases List.mem_cons.mp hp with h1 | h1
        · rw [h1]
          simp
        · exact ih p (by rw [hs]; exact h1)
      · rw [if_neg hc] at hp
        rcases List.mem_cons.mp hp with h1 | h1
        · rw [h1]
          intro hmem
          rcases List.mem_cons.mp hmem with h2 | h2
          · exact hc h2.symm
          · exact ih h (by rw [hs]; exact List.mem_cons_self _ _) h2
        · exact ih p (by rw [hs]; exact List.mem_cons_of_mem _ h1)

/-- Splitting a dot-free list yields that single part. -/
lemma splitDots_dotfree (xs : List Char) (h : '.' ∉ xs) : splitDots xs = [xs] := by
  induction xs with
  | nil => rfl
  | cons c rest ih =>
    have hc : ¬ (c = '.') := by
      intro hh
      apply h
      rw [hh]
      exact List.mem_cons_self _ _
    have hrest : '.' ∉ rest := fun hh => h (List.mem_cons_of_mem _ hh)
    simp [splitDots, ih hrest, hc]

/-- Splitting after a dot-free prefix peels off exactly that prefix. -/
lemma splitDots_append (xs rest : List Char) (h : '.' ∉ xs) :
    splitDots (xs ++ '.' :: rest) = xs :: splitDots rest := by
  induction xs with
  | nil =>
    cases hs : splitDots rest with
    | nil => exact absurd hs (splitDots_ne_nil rest)
    | cons h1 t => simp [splitDots, hs]
  | cons c cs ih =>
    have hc : ¬ (c = '.') := by
      intro hh
      apply h
      rw [hh]
      exact List.mem_cons_self _ _
    have hcs : '.' ∉ cs := fun hh => h (List.mem_cons_of_mem _ hh)
    simp [splitDots, ih hcs, hc]

/-- No character of a `%d` token is a dot. -/
lemma dayTok_no_dot {cs : List Char} (h : dayTok cs = true) : '.' ∉ cs := by
  intro hmem
  cases cs with
  | nil => simp at hmem
  | cons c1 tl =>
    cases tl with
    | nil =>
      have he : '.' = c1 := by simpa using hmem
      rw [← he] at h
      simp only [dayTok, decide_eq_true_eq] at h
      exact absurd h (by decide)
    | cons c2 tl2 =>
      cases tl2 with
      | nil =>
        rcases (by simpa using hmem : '.' = c1 ∨ '.' = c2) with he | he
        · rw [← he] at h
          simp only [dayTok, Bool.or_eq_true, Bool.and_eq_true,
            decide_eq_true_eq] at h
          rcases h with ((⟨h1, _⟩ | ⟨h1 | h1, _⟩) | ⟨h1, _⟩) | ⟨h1, _⟩ <;>
            exact absurd h1 (by decide)
        · rw [← he] at h
          simp only [dayTok, Bool.or_eq_true, Bool.and_eq_true,
            decide_eq_true_eq] at h
          rcases h with ((⟨_, h1 | h1⟩ | ⟨_, h1⟩) | ⟨_, h1⟩) | ⟨_, h1⟩ <;>
            exact absurd h1 (by decide)
      | cons c3 tl3 =>
        simp only [dayTok] at h
        exact Bool.noConfusion h

/-- No character of a `%m` token is a dot. -/
lemma monthTok_no_dot {cs : List Char} (h : monthTok cs = true) : '.' ∉ cs := by
  intro hmem
  cases cs with
  | nil => simp at hmem
  | cons c1 tl =>
    cases tl with
    | nil =>
      have he : '.' = c1 := by simpa using hmem
      rw [← he] at h
      simp only [monthTok, decide_eq_true_eq] at h
      exact absurd h (by decide)
    | cons c2 tl2 =>
      cases tl2 with
      | nil =>
        rcases (by simpa using hmem : '.' = c1 ∨ '.' = c2) with he | he
        · rw [← he] at h
          simp only [monthTok, Bool.or_eq_true, Bool.and_eq_true,
            decide_eq_true_eq] at h
          rcases h with ⟨h1, _⟩ | ⟨h1, _⟩ <;> exact absurd h1 (by decide)
        · rw [← he] at h
          simp only [monthTok, Bool.or_eq_true, Bool.and_eq_true,
            decide_eq_true_eq] at h
          rcases h with ⟨_, h1⟩ | ⟨_, h1⟩ <;> exact absurd h1 (by decide)
      | cons c3 tl3 =>
        simp only [monthTok] at h
        exact Bool.noConfusion h

/-- No character of a `%Y` token is a dot. -/
lemma yearTok_no_dot {cs : List Char} (h : yearTok cs = true) : '.' ∉ cs := by
  intro hmem
  simp only [yearTok, Bool.and_eq_true, List.all_eq_true] at h
  exact absurd (h.2 _ hmem) (by decide)

/-- Anatomy of a successful `Birthday` construction: the input splits into
three token lists satisfying the `strptime` patterns and the calendar
check, and the stored value is the parsed date with the original string. -/
lemma birthday_init_ok_parts {s : String} {b : Birthday} (h : Birthday.init s = .ok b) :
    ∃ d m y, splitDots s.data = [d, m, y] ∧ dayTok d = true ∧ monthTok m = true ∧
      yearTok y = true ∧ 1 ≤ pyInt y ∧
      pyInt d ≤ daysInMonth (pyInt y) (pyInt m) ∧
      b = ⟨⟨pyInt y, pyInt m, pyInt d⟩, s⟩ := by
  unfold Birthday.init at h
  rcases hs : splitDots s.data with _ | ⟨d, tl⟩
  · rw [hs] at h
    exact Except.noConfusion h
  rcases tl with _ | ⟨m, tl2⟩
  · rw [hs] at h
    exact Except.noConfusion h
  rcases tl2 with _ | ⟨y, tl3⟩
  · rw [hs] at h
    exact Except.noConfusion h
  rcases tl3 with _ | ⟨z, zs⟩
  · rw [hs] at h
    have h' : (if dayTok d && monthTok m && yearTok y then
          if decide (1 ≤ pyInt y) &&
              decide (pyInt d ≤ daysInMonth (pyInt y) (pyInt m)) then
            Except.ok (⟨⟨pyInt y, pyInt m, pyInt d⟩, s⟩ : Birthday)
          else Except.error Err.invalidFormat
        else Except.error Err.invalidFormat) = Except.ok b := h
    by_cases h1 : (dayTok d && monthTok m && yearTok y) = true
    · rw [if_pos h1] at h'
      by_cases h2 : (decide (1 ≤ pyInt y) &&
          decide (pyInt d ≤ daysInMonth (pyInt y) (pyInt m))) = true
      · rw [if_pos h2] at h'
        simp only [Bool.and_eq_true, decide_eq_true_eq] at h1 h2
        exact ⟨d, m, y, by first | exact hs | rfl, h1.1.1, h1.1.2, h1.2, h2.1, h2.2,
          (Except.ok.inj h').symm⟩
      · rw [if_neg h2] at h'
        exact Except.noConfusion h'
    · rw [if_neg h1] at h'
      exact Except.noConfusion h'
  · rw [hs] at h
    exact Except.noConfusion h

/-- Converse anatomy: token lists satisfying the patterns and the calendar
check make `Birthday` construction succeed. -/
lemma birthday_init_ok_of_parts {s : String} {d m y : List Char}
    (hs : splitDots s.data = [d, m, y]) (h1 : dayTok d = true) (h2 : monthTok m = true)
    (h3 : yearTok y = true) (h4 : 1 ≤ pyInt y)
    (h5 : pyInt d ≤ daysInMonth (pyInt y) (pyInt m)) :
    Birthday.init s = .ok ⟨⟨pyInt y, pyInt m, pyInt d⟩, s⟩ := by
  unfold Birthday.init
  rw [hs]
  show (if dayTok d && monthTok m && yearTok y then
      if decide (1 ≤ pyInt y) &&
          decide (pyInt d ≤ daysInMonth (pyInt y) (pyInt m)) then
        Except.ok (⟨⟨pyInt y, pyInt m, pyInt d⟩, s⟩ : Birthday)
      else Except.error Err.invalidFormat
    else Except.error Err.invalidFormat) = _
  rw [if_pos (by simp [h1, h2, h3]), if_pos (by simp [h4, h5])]

/-- What the code actually accepts, phrased structurally (from the amended
claim): the string splits at two dots into a day segment matching
`strptime`'s `%d` pattern (so its second character, after an ASCII `1` or
`2`, may be any Unicode decimal digit, and a single leading space is
allowed), a month segment matching the ASCII-only `%m` pattern, and a year
of exactly four Unicode decimal digits; the year read by `int()` is at
least 1 and the day exists in that month of that year. -/
def amendedAccept (s : String) : Prop :=
  ∃ dcs mcs ycs : List Char,
    s.data = dcs ++ '.' :: (mcs ++ '.' :: ycs) ∧
    dayTok dcs = true ∧ monthTok mcs = true ∧ yearTok ycs = true ∧
    1 ≤ pyInt ycs ∧
    pyInt dcs ≤ daysInMonth (pyInt ycs) (pyInt mcs)

/-- C7 (amended): `Birthday` construction from `s` succeeds if and only if
`s` is day`.`month`.`year where the day matches `strptime`'s `%d` pattern
`3[0-1]|[1-2]\d|0[1-9]|[1-9]| [1-9]` (`\d` being any Unicode decimal
digit), the month matches the ASCII `%m` pattern `1[0-2]|0[1-9]|[1-9]`,
the year is exactly four Unicode decimal digits read by `int()` to a value
≥ 1, and the day exists in that month of that year — so zero-padding is
optional and non-ASCII digits are accepted in the day's second position
and in the year, unlike the claimed strict `DD.MM.YYYY`. On success the
original string and the parsed date are stored, any failure is the
invalid-format error, the Arabic-Indic example `"12.11.٢٠٢٤"` succeeds as
2024-11-12, and the specification's examples `"30.02.2024"` and
`"13/05/2024"` both fail. -/
theorem birthday_init_amended (s : String) :
    ((∃ b : Birthday, Birthday.init s = .ok b) ↔ amendedAccept s)
    ∧ (∀ b : Birthday, Birthday.init s = .ok b → b.value = s ∧
        ∃ dcs mcs ycs : List Char, s.data = dcs ++ '.' :: (mcs ++ '.' :: ycs) ∧
          b.date = ⟨pyInt ycs, pyInt mcs, pyInt dcs⟩)
    ∧ (¬ amendedAccept s → Birthday.init s = .error .invalidFormat)
    ∧ Birthday.init "12.11.٢٠٢٤" = .ok ⟨⟨2024, 11, 12⟩, "12.11.٢٠٢٤"⟩
    ∧ Birthday.init "30.02.2024" = .error .invalidFormat
    ∧ Birthday.init "13/05/2024" = .error .invalidFormat := by
  have decomp : ∀ {d m y : List Char}, splitDots s.data = [d, m, y] →
      s.data = d ++ '.' :: (m ++ '.' :: y) := by
    intro d m y hs
    have hjoin := joinDots_splitDots s.data
    rw [hs] at hjoin
    exact hjoin.symm
  have fwd : (∃ b : Birthday, Birthday.init s = .ok b) → amendedAccept s := by
    rintro ⟨b, hb⟩
    obtain ⟨d, m, y, hs, hd, hm, hy, hy1, hdm, _⟩ := birthday_init_ok_parts hb
    exact ⟨d, m, y, decomp hs, hd, hm, hy, hy1, hdm⟩
  have bwd : amendedAccept s → (∃ b : Birthday, Birthday.init s = .ok b) := by
    rintro ⟨dcs, mcs, ycs, hshape, hd, hm, hy, hy1, hcal⟩
    have hs : splitDots s.data = [dcs, mcs, ycs] := by
      rw [hshape, splitDots_append dcs _ (dayTok_no_dot hd),
        splitDots_append mcs _ (monthTok_no_dot hm),
        splitDots_dotfree ycs (yearTok_no_dot hy)]
    exact ⟨⟨⟨pyInt ycs, pyInt mcs, pyInt dcs⟩, s⟩,
      birthday_init_ok_of_parts hs hd hm hy hy1 hcal⟩
  refine ⟨⟨fwd, bwd⟩, ?_, ?_, rfl, rfl, rfl⟩
  · intro b hb
    obtain ⟨d, m, y, hs, _, _, _, _, _, hbval⟩ := birthday_init_ok_parts hb
    rw [hbval]
    exact ⟨rfl, d, m, y, decomp hs, rfl⟩
  · intro hnot
    cases hinit : Birthday.init s with
    | ok b => exact absurd (fwd ⟨b, hinit⟩) hnot
    | error e => rw [birthday_init_error hinit]

/-- Witness for C7's amended theorem: `"05.06.2024"` satisfies the amended
acceptance condition and `Birthday` construction on it succeeds. -/
theorem birthday_init_amended_witness :
    amendedAccept "05.06.2024" ∧ ∃ b : Birthday, Birthday.init "05.06.2024" = .ok b := by
  have ha : amendedAccept "05.06.2024" :=
    ⟨['0', '5'], ['0', '6'], ['2', '0', '2', '4'], by decide⟩
  exact ⟨ha, (birthday_init_amended "05.06.2024").1.mpr ha⟩

end Task01
